import Mathlib

/-!
Verification of the goplot data-sample pipeline (src/goplot.go and the
refactored variant src/unnamed/part_000).

Modelling conventions for the shallow embedding:

* Go `float64` values are idealised as exact rationals extended with signed
  infinities and `nan` (IEEE-754 rounding, overflow and the sign of zero are
  not modelled).  `FloatVal.rootOf q` stands for the exact nonnegative square
  root of a positive rational that is not a perfect square; in the embedded
  program such a value is only ever produced by the final `math.Sqrt` calls of
  `linearRegression` and is never used as an arithmetic operand.
* Go strings are embedded as `List Char`.  `strconv.ParseFloat` is modelled at
  its interface by `parseFloat`, covering the decimal and `inf`/`infinity`/
  `nan` forms accepted by Go (hexadecimal mantissas and digit-group
  underscores are not modelled, and a syntactically valid decimal is mapped to
  its exact rational value, so out-of-range errors do not arise in the
  idealisation).  `strings.TrimSpace` is modelled over the ASCII whitespace
  characters.
* `encoding/json.Marshal` is modelled by `marshalDataSample`, which produces a
  JSON syntax tree and fails exactly on non-finite numbers, as Go's encoder
  does; the final byte rendering is `renderJson`, whose exact numeral spelling
  is not part of any claim.
-/

namespace GoPlot

/-- Idealised IEEE-754 binary64 value: finite values are exact rationals,
infinities carry a sign (`true` = negative), invalid operations give `nan`,
and `rootOf q` is the exact nonnegative square root of a positive non-square
rational (only ever a final result of `FloatVal.sqrt`, never an operand). -/
inductive FloatVal : Type where
  | num : ℚ → FloatVal
  | inf : Bool → FloatVal
  | nan : FloatVal
  | rootOf : ℚ → FloatVal
deriving DecidableEq, Repr

namespace FloatVal

/-- Negation on idealised floats. -/
def neg : FloatVal → FloatVal
  | num a => num (-a)
  | inf s => inf (!s)
  | _ => nan

/-- Addition on idealised floats (∞ + (−∞) = NaN, NaN propagates). -/
def add : FloatVal → FloatVal → FloatVal
  | num a, num b => num (a + b)
  | num _, inf s => inf s
  | inf s, num _ => inf s
  | inf s, inf t => if s = t then inf s else nan
  | _, _ => nan

/-- Multiplication on idealised floats (0 · ∞ = NaN, NaN propagates). -/
def mul : FloatVal → FloatVal → FloatVal
  | num a, num b => num (a * b)
  | num a, inf s => if a = 0 then nan else if a < 0 then inf (!s) else inf s
  | inf s, num b => if b = 0 then nan else if b < 0 then inf (!s) else inf s
  | inf s, inf t => if s = t then inf false else inf true
  | _, _ => nan

/-- Subtraction, as addition of the negation (agrees with IEEE-754). -/
def sub (a b : FloatVal) : FloatVal := add a (neg b)

/-- Division on idealised floats: finite/0 is a signed infinity for a nonzero
numerator and NaN for 0/0, finite/∞ is 0, ∞/∞ is NaN, NaN propagates.
(The sign of zero is not modelled, so x/0 uses the numerator's sign only.) -/
def div : FloatVal → FloatVal → FloatVal
  | num a, num b =>
      if b = 0 then
        if a = 0 then nan else if a < 0 then inf true else inf false
      else num (a / b)
  | num _, inf _ => num 0
  | inf s, num b => if b < 0 then inf (!s) else inf s
  | inf _, inf _ => nan
  | _, _ => nan

instance : Neg FloatVal := ⟨neg⟩
instance : Add FloatVal := ⟨add⟩
instance : Sub FloatVal := ⟨sub⟩
instance : Mul FloatVal := ⟨mul⟩
instance : Div FloatVal := ⟨div⟩

end FloatVal

/-- Exact rational square root: `some r` when `q` is a nonnegative rational
whose numerator and denominator are perfect squares (so `r * r = q`),
`none` otherwise. -/
def ratSqrt (q : ℚ) : Option ℚ :=
  if 0 ≤ q.num ∧ Nat.sqrt q.num.toNat * Nat.sqrt q.num.toNat = q.num.toNat
      ∧ Nat.sqrt q.den * Nat.sqrt q.den = q.den then
    some ((Nat.sqrt q.num.toNat : ℚ) / (Nat.sqrt q.den : ℚ))
  else none

/-- `math.Sqrt` on idealised floats: NaN for negative or NaN input, +∞ for +∞;
an exact rational when one exists, the symbolic `rootOf` otherwise. -/
def FloatVal.sqrt : FloatVal → FloatVal
  | num q =>
      if q < 0 then nan
      else match ratSqrt q with
        | some r => num r
        | none => rootOf q
  | inf s => if s then nan else inf false
  | _ => nan

/-- The `Point` struct of the Go sources (fields `x`, `y`). -/
structure Point where
  x : FloatVal
  y : FloatVal
deriving DecidableEq, Repr

/-! ### String primitives (`strings`/`strconv` at their interfaces) -/

/-- ASCII whitespace, as trimmed by `strings.TrimSpace` (the non-ASCII Unicode
space characters are not modelled). -/
def isSpace (c : Char) : Bool :=
  c == ' ' || c == '\t' || c == '\n' || c == '\r' || c == '\x0b' || c == '\x0c'

/-- Drop leading whitespace. -/
def trimStart (s : List Char) : List Char := s.dropWhile isSpace

/-- Drop trailing whitespace. -/
def trimEnd (s : List Char) : List Char := (s.reverse.dropWhile isSpace).reverse

/-- `strings.TrimSpace`. -/
def trimSpace (s : List Char) : List Char := trimEnd (trimStart s)

/-- Split at the first occurrence of `sep`: `some (before, after)`, or `none`
when `sep` does not occur. -/
def splitFirst (sep : Char) : List Char → Option (List Char × List Char)
  | [] => none
  | c :: cs =>
      if c = sep then some ([], cs)
      else match splitFirst sep cs with
        | none => none
        | some (a, b) => some (c :: a, b)

/-- `strings.SplitN s sep n` for a single-character separator and `n > 0`:
at most `n` fields, the last field keeping the unsplit remainder. -/
def splitN (sep : Char) : Nat → List Char → List (List Char)
  | 0, _ => []
  | 1, s => [s]
  | n + 2, s =>
      match splitFirst sep s with
      | none => [s]
      | some (a, b) => a :: splitN sep (n + 1) b

/-- Optional leading sign: `true` for `-`; returns the rest of the string. -/
def parseSignCh (s : List Char) : Bool × List Char :=
  match s with
  | [] => (false, s)
  | c :: cs => if c = '-' then (true, cs) else if c = '+' then (false, cs) else (false, s)

/-- Numeric value of a digit string (most significant first). -/
def natOfDigits (ds : List Char) : ℕ :=
  ds.foldl (fun a c => 10 * a + (c.toNat - '0'.toNat)) 0

/-- Optional exponent part of a Go decimal literal: empty, or `e`/`E`, an
optional sign and at least one digit, consuming the whole rest. -/
def parseExpPart (s : List Char) (m : ℚ) : Option ℚ :=
  match s with
  | [] => some m
  | c :: cs =>
      if c = 'e' ∨ c = 'E' then
        let sg := parseSignCh cs
        let ds := sg.2.takeWhile Char.isDigit
        let rest := sg.2.dropWhile Char.isDigit
        if ds = [] ∨ rest ≠ [] then none
        else if sg.1 then some (m / 10 ^ natOfDigits ds)
        else some (m * 10 ^ natOfDigits ds)
      else none

/-- Unsigned decimal mantissa with optional fraction and exponent: the part of
Go's `strconv.ParseFloat` grammar after the sign (hexadecimal mantissas and
underscores are not modelled). -/
def parseMantissa (s : List Char) : Option ℚ :=
  let d1 := s.takeWhile Char.isDigit
  let r1 := s.dropWhile Char.isDigit
  if r1.head? = some '.' then
    let d2 := r1.tail.takeWhile Char.isDigit
    let r3 := r1.tail.dropWhile Char.isDigit
    if d1 = [] ∧ d2 = [] then none
    else parseExpPart r3 ((natOfDigits d1 : ℚ) + (natOfDigits d2 : ℚ) / 10 ^ d2.length)
  else if d1 = [] then none
  else parseExpPart r1 (natOfDigits d1)

/-- `strconv.ParseFloat s 64`, idealised: exact value for a syntactically
valid decimal, the `inf`/`infinity` forms after an optional sign, unsigned
`nan` (all case-insensitive), `none` on a syntax error. -/
def parseFloat (s : List Char) : Option FloatVal :=
  if s = [] then none
  else
    let sg := parseSignCh s
    if sg.2.map Char.toLower = ['i', 'n', 'f']
        ∨ sg.2.map Char.toLower = ['i', 'n', 'f', 'i', 'n', 'i', 't', 'y'] then
      some (.inf sg.1)
    else if s.map Char.toLower = ['n', 'a', 'n'] then
      some .nan
    else match parseMantissa sg.2 with
      | none => none
      | some m => some (.num (if sg.1 then -m else m))

/-! ### The line parser (`parseLine` in both sources) -/

/-- The error cases of the Go `parseLine`: `noData` is the
`errors.New "parseLine: No data"` result for an empty line, `invalidNumber`
a `strconv.ParseFloat` failure on field 0 or field 1. -/
inductive ParseErr where
  | noData : ParseErr
  | invalidNumber : ParseErr
deriving DecidableEq, Repr

/-- The Go `parseLine`: mirrors the named-return pattern `(p Point, err error)`
with `p` starting as the zero value.  Note that a non-empty line whose trimmed
form splits into fewer than 2 comma-separated fields leaves both `p` and `err`
untouched, so the function returns the zero pair with a `none` error. -/
def parseLine (coords : List Char) : Point × Option ParseErr :=
  if coords.length > 0 then
    match splitN ',' 3 (trimSpace coords) with
    | f0 :: f1 :: _ =>
        match parseFloat f0 with
        | some x =>
            match parseFloat f1 with
            | some y => (⟨x, y⟩, none)
            | none => (⟨x, .num 0⟩, some .invalidNumber)
        | none => (⟨.num 0, .num 0⟩, some .invalidNumber)
    | _ => (⟨.num 0, .num 0⟩, none)
  else (⟨.num 0, .num 0⟩, some .noData)

/-! ### The sample ingestor (first half of `dataSampleProcess`) -/

/-- The `MAXLINES` cap of `dataSampleProcess`. -/
def MAXLINES : Nat := 1000000

/-- The accumulation loop of `dataSampleProcess`: append the parsed point of
each line whose `parseLine` error is nil, skip the others. -/
def ingestLoop : List (List Char) → List Point → List Point
  | [], acc => acc
  | l :: rest, acc =>
      match parseLine l with
      | (p, none) => ingestLoop rest (acc ++ [p])
      | (_, some _) => ingestLoop rest acc

/-- The ingestion half of `dataSampleProcess` (the spec's `ingest`): split the
submission on newlines (capped at `MAXLINES` fields) and accumulate the
successfully parsed points in order. -/
def ingestSeries (src : List Char) : List Point :=
  ingestLoop (splitN '\n' MAXLINES src) []

/-! ### The regression engine (`linearRegression`) -/

/-- The four running sums of the first loop of `linearRegression`. -/
structure Sums where
  sumx : FloatVal
  sumy : FloatVal
  sumxy : FloatVal
  sumx2 : FloatVal
deriving DecidableEq, Repr

/-- First loop of `linearRegression`: Σx, Σy, Σxy, Σx². -/
def regSums (series : List Point) : Sums :=
  series.foldl
    (fun a p => ⟨a.sumx + p.x, a.sumy + p.y, a.sumxy + p.x * p.y, a.sumx2 + p.x * p.x⟩)
    ⟨.num 0, .num 0, .num 0, .num 0⟩

/-- `flen := float64(len(series))`. -/
def regFlen (series : List Point) : FloatVal := .num (series.length : ℚ)

/-- `xmean := sumx / flen`. -/
def regXmean (series : List Point) : FloatVal := (regSums series).sumx / regFlen series

/-- `ymean := sumy / flen`. -/
def regYmean (series : List Point) : FloatVal := (regSums series).sumy / regFlen series

/-- `slope := (flen*sumxy - sumx*sumy) / (flen*sumx2 - sumx*sumx)`. -/
def regSlope (series : List Point) : FloatVal :=
  (regFlen series * (regSums series).sumxy - (regSums series).sumx * (regSums series).sumy) /
    (regFlen series * (regSums series).sumx2 - (regSums series).sumx * (regSums series).sumx)

/-- `intercept := ymean - slope*xmean`. -/
def regIntercept (series : List Point) : FloatVal :=
  regYmean series - regSlope series * regXmean series

/-- Second loop, total sum of squares: `st += (y - ymean) * (y - ymean)`. -/
def regSt (series : List Point) : FloatVal :=
  series.foldl (fun a p => a + (p.y - regYmean series) * (p.y - regYmean series)) (.num 0)

/-- Second loop, residual sum of squares with the source's sign convention:
`sr += (y - (slope*x - intercept)) * (y - (slope*x - intercept))`. -/
def regSr (series : List Point) : FloatVal :=
  series.foldl
    (fun a p =>
      a + (p.y - (regSlope series * p.x - regIntercept series)) *
        (p.y - (regSlope series * p.x - regIntercept series)))
    (.num 0)

/-- The Go `linearRegression`: returns
`(slope, intercept, sqrt (sr/(flen-2)), sqrt ((st-sr)/st))`. -/
def linearRegression (series : List Point) : FloatVal × FloatVal × FloatVal × FloatVal :=
  (regSlope series, regIntercept series,
    FloatVal.sqrt (regSr series / (regFlen series - .num 2)),
    FloatVal.sqrt ((regSt series - regSr series) / regSt series))

/-! ### The response encoder (part_000's structs and `json.Marshal`) -/

/-- The `RegressionLine` struct of part_000, with its JSON tags as field
names `slope`, `intercept`, `stdError`, `correlation`. -/
structure RegressionLine where
  slope : FloatVal
  intercept : FloatVal
  stdError : FloatVal
  correlation : FloatVal
deriving DecidableEq, Repr

/-- The `DataSample` struct of part_000: JSON tags `series`, `regressionLine`. -/
structure DataSample where
  series : List Point
  regressionLine : RegressionLine
deriving DecidableEq, Repr

/-- JSON syntax tree produced by the modelled `json.Marshal` (only the forms
the program emits: numbers, arrays and objects with ordered fields). -/
inductive Json where
  | jnum : FloatVal → Json
  | jarr : List Json → Json
  | jobj : List (String × Json) → Json

/-- Finite floats are the ones `encoding/json` can encode. -/
def FloatVal.isFinite : FloatVal → Bool
  | .num _ => true
  | .rootOf _ => true
  | _ => false

/-- `json.Marshal` on one float64: fails exactly on NaN and the infinities
(Go's `json: unsupported value` error). -/
def marshalFloat (v : FloatVal) : Option Json :=
  if v.isFinite then some (.jnum v) else none

/-- `json.Marshal` on one `Point`: an object with fields `x`, `y` in struct
order. -/
def marshalPoint (p : Point) : Option Json := do
  let jx ← marshalFloat p.x
  let jy ← marshalFloat p.y
  pure (.jobj [("x", jx), ("y", jy)])

/-- `json.Marshal` on a `DataSample`: top-level fields `series` and
`regressionLine` in struct order, failing iff any contained float is
non-finite. -/
def marshalDataSample (ds : DataSample) : Option Json := do
  let pts ← ds.series.mapM marshalPoint
  let s ← marshalFloat ds.regressionLine.slope
  let i ← marshalFloat ds.regressionLine.intercept
  let e ← marshalFloat ds.regressionLine.stdError
  let c ← marshalFloat ds.regressionLine.correlation
  pure (.jobj [("series", .jarr pts),
    ("regressionLine", .jobj [("slope", s), ("intercept", i), ("stdError", e), ("correlation", c)])])

/-- Textual form of a finite float (the exact numeral spelling of Go's
encoder is not modelled; no claim depends on it). -/
def renderFloat : FloatVal → String
  | .num q => toString q.num ++ "/" ++ toString q.den
  | .rootOf q => "root " ++ toString q.num ++ "/" ++ toString q.den
  | .inf b => if b then "-infinite" else "+infinite"
  | .nan => "not-a-number"

mutual

/-- Byte rendering of the marshalled JSON tree. -/
def renderJson : Json → String
  | .jnum v => renderFloat v
  | .jarr xs => "[" ++ renderJsonList xs ++ "]"
  | .jobj fs => "\x7b" ++ renderJsonFields fs ++ "\x7d"

/-- Comma-separated rendering of array elements. -/
def renderJsonList : List Json → String
  | [] => ""
  | [j] => renderJson j
  | j :: rest => renderJson j ++ "," ++ renderJsonList rest

/-- Comma-separated rendering of object fields. -/
def renderJsonFields : List (String × Json) → String
  | [] => ""
  | [(k, j)] => "\"" ++ k ++ "\":" ++ renderJson j
  | (k, j) :: rest => "\"" ++ k ++ "\":" ++ renderJson j ++ "," ++ renderJsonFields rest

end

/-- Build the `DataSample` of part_000's `dataSampleProcess` from the
ingested series and the four regression results. -/
def sampleOf (series : List Point) : DataSample :=
  ⟨series,
    ⟨(linearRegression series).1, (linearRegression series).2.1,
      (linearRegression series).2.2.1, (linearRegression series).2.2.2⟩⟩

/-- part_000's `dataSampleProcess`: ingest, regress, marshal; on a marshalling
error the function returns with the named result string still at its zero
value, i.e. the empty string. -/
def dataSampleProcess (src : List Char) : String :=
  match marshalDataSample (sampleOf (ingestSeries src)) with
  | none => ""
  | some j => renderJson j

/-! ### Spec-side definitions (§4.3 of the spec, for the refinement claims) -/

/-- Spec §4.3: Sx = Σx. -/
def specSx (rs : List (ℚ × ℚ)) : ℚ := (rs.map Prod.fst).sum

/-- Spec §4.3: Sy = Σy. -/
def specSy (rs : List (ℚ × ℚ)) : ℚ := (rs.map Prod.snd).sum

/-- Spec §4.3: Sxy = Σ(x·y). -/
def specSxy (rs : List (ℚ × ℚ)) : ℚ := (rs.map fun p => p.1 * p.2).sum

/-- Spec §4.3: Sx2 = Σ(x²). -/
def specSx2 (rs : List (ℚ × ℚ)) : ℚ := (rs.map fun p => p.1 * p.1).sum

/-- Spec §4.3: slope = (n·Sxy − Sx·Sy) / (n·Sx2 − Sx·Sx). -/
def specSlope (rs : List (ℚ × ℚ)) : ℚ :=
  ((rs.length : ℚ) * specSxy rs - specSx rs * specSy rs) /
    ((rs.length : ℚ) * specSx2 rs - specSx rs * specSx rs)

/-- Spec §4.3: intercept = mean(y) − slope·mean(x). -/
def specIntercept (rs : List (ℚ × ℚ)) : ℚ :=
  specSy rs / (rs.length : ℚ) - specSlope rs * (specSx rs / (rs.length : ℚ))

/-- Spec §4.3: St = Σ(y − mean(y))². -/
def specSt (rs : List (ℚ × ℚ)) : ℚ :=
  (rs.map fun p => (p.2 - specSy rs / (rs.length : ℚ)) ^ 2).sum

/-- Spec §4.3: Sr = Σ(y − (slope·x − intercept))², with the source's
`slope·x − intercept` (minus, not plus) fitted value. -/
def specSr (rs : List (ℚ × ℚ)) : ℚ :=
  (rs.map fun p => (p.2 - (specSlope rs * p.1 - specIntercept rs)) ^ 2).sum

/-- A finite rational pair as a `Point` of the program. -/
def mkP (p : ℚ × ℚ) : Point := ⟨.num p.1, .num p.2⟩

/-- The field names of a JSON object (empty for other forms). -/
def topFields : Json → List String
  | .jobj fs => fs.map Prod.fst
  | _ => []

/-- The marshalled form of one point. -/
def pointJson (p : Point) : Json := .jobj [("x", .jnum p.x), ("y", .jnum p.y)]

/-- The marshalled form of the regression line. -/
def rlJson (r : RegressionLine) : Json :=
  .jobj [("slope", .jnum r.slope), ("intercept", .jnum r.intercept),
    ("stdError", .jnum r.stdError), ("correlation", .jnum r.correlation)]

/-- Characters of a string literal, for concrete test inputs. -/
def strL (s : String) : List Char := s.data

/-! ## Computation lemmas for the idealised float arithmetic -/

@[simp]
theorem num_add (a b : ℚ) : (FloatVal.num a) + (FloatVal.num b) = .num (a + b) := rfl

@[simp]
theorem num_mul (a b : ℚ) : (FloatVal.num a) * (FloatVal.num b) = .num (a * b) := rfl

@[simp]
theorem num_sub (a b : ℚ) : (FloatVal.num a) - (FloatVal.num b) = .num (a - b) := by
  rw [show (FloatVal.num a) - (FloatVal.num b) = FloatVal.num (a + -b) from rfl,
    ← sub_eq_add_neg]

theorem num_div (a b : ℚ) (h : b ≠ 0) : (FloatVal.num a) / (FloatVal.num b) = .num (a / b) := by
  show FloatVal.div _ _ = _
  simp only [FloatVal.div]
  rw [if_neg h]

theorem num_div_zero (a : ℚ) :
    (FloatVal.num a) / (FloatVal.num 0) =
      if a = 0 then .nan else if a < 0 then .inf true else .inf false := by
  show FloatVal.div _ _ = _
  simp only [FloatVal.div]
  simp

@[simp]
theorem nan_add (v : FloatVal) : FloatVal.nan + v = .nan := by cases v <;> rfl

@[simp]
theorem add_nan (v : FloatVal) : v + FloatVal.nan = .nan := by cases v <;> rfl

@[simp]
theorem nan_mul (v : FloatVal) : FloatVal.nan * v = .nan := by cases v <;> rfl

@[simp]
theorem mul_nan (v : FloatVal) : v * FloatVal.nan = .nan := by cases v <;> rfl

@[simp]
theorem nan_sub (v : FloatVal) : FloatVal.nan - v = .nan := by cases v <;> rfl

@[simp]
theorem sub_nan (v : FloatVal) : v - FloatVal.nan = .nan := by cases v <;> rfl

@[simp]
theorem nan_div (v : FloatVal) : FloatVal.nan / v = .nan := by cases v <;> rfl

@[simp]
theorem div_nan (v : FloatVal) : v / FloatVal.nan = .nan := by cases v <;> rfl

@[simp]
theorem sqrt_nan : FloatVal.sqrt .nan = .nan := rfl

@[simp]
theorem sqrt_inf_neg : FloatVal.sqrt (.inf true) = .nan := rfl

@[simp]
theorem sqrt_inf_pos : FloatVal.sqrt (.inf false) = .inf false := rfl

@[simp]
theorem ratSqrt_zero : ratSqrt 0 = some 0 := by
  unfold ratSqrt
  norm_num

@[simp]
theorem ratSqrt_one : ratSqrt 1 = some 1 := by
  unfold ratSqrt
  norm_num

@[simp]
theorem sqrt_num_zero : FloatVal.sqrt (.num 0) = .num 0 := by
  unfold FloatVal.sqrt
  norm_num

@[simp]
theorem sqrt_num_one : FloatVal.sqrt (.num 1) = .num 1 := by
  unfold FloatVal.sqrt
  norm_num

@[simp]
theorem num_zero_div_num_zero : (FloatVal.num 0) / (FloatVal.num 0) = .nan := by
  rw [num_div_zero, if_pos rfl]

/-! ## The Go loops versus the spec's sums -/

theorem foldl_sums (rs : List (ℚ × ℚ)) : ∀ a b c d : ℚ,
    List.foldl
      (fun a p => (⟨a.sumx + p.x, a.sumy + p.y, a.sumxy + p.x * p.y, a.sumx2 + p.x * p.x⟩ : Sums))
      ⟨.num a, .num b, .num c, .num d⟩ (rs.map mkP) =
      ⟨.num (a + specSx rs), .num (b + specSy rs),
        .num (c + specSxy rs), .num (d + specSx2 rs)⟩ := by
  induction rs with
  | nil =>
      intro a b c d
      simp [specSx, specSy, specSxy, specSx2]
  | cons hd tl ih =>
      intro a b c d
      simp only [List.map_cons, List.foldl_cons, mkP, num_add, num_mul]
      rw [ih]
      simp only [Sums.mk.injEq, FloatVal.num.injEq, specSx, specSy, specSxy, specSx2,
        List.map_cons, List.sum_cons]
      refine ⟨by ring, by ring, by ring, by ring⟩

theorem regSums_mkP (rs : List (ℚ × ℚ)) :
    regSums (rs.map mkP) =
      ⟨.num (specSx rs), .num (specSy rs), .num (specSxy rs), .num (specSx2 rs)⟩ := by
  have h := foldl_sums rs 0 0 0 0
  simpa [regSums] using h

theorem regFlen_mkP (rs : List (ℚ × ℚ)) : regFlen (rs.map mkP) = .num (rs.length : ℚ) := by
  simp [regFlen]

theorem foldl_sq (m : ℚ) (rs : List (ℚ × ℚ)) : ∀ a : ℚ,
    List.foldl (fun a p => a + (p.y - FloatVal.num m) * (p.y - FloatVal.num m))
      (.num a) (rs.map mkP) =
      .num (a + ((rs.map fun p => (p.2 - m) ^ 2).sum)) := by
  induction rs with
  | nil => intro a; simp
  | cons hd tl ih =>
      intro a
      simp only [List.map_cons, List.foldl_cons, mkP, num_sub, num_mul, num_add]
      rw [ih]
      simp only [FloatVal.num.injEq, List.map_cons, List.sum_cons]
      ring

theorem foldl_res (s i : ℚ) (rs : List (ℚ × ℚ)) : ∀ a : ℚ,
    List.foldl
      (fun a p =>
        a + (p.y - (FloatVal.num s * p.x - FloatVal.num i)) *
          (p.y - (FloatVal.num s * p.x - FloatVal.num i)))
      (.num a) (rs.map mkP) =
      .num (a + ((rs.map fun p => (p.2 - (s * p.1 - i)) ^ 2).sum)) := by
  induction rs with
  | nil => intro a; simp
  | cons hd tl ih =>
      intro a
      simp only [List.map_cons, List.foldl_cons, mkP, num_sub, num_mul, num_add]
      rw [ih]
      simp only [FloatVal.num.injEq, List.map_cons, List.sum_cons]
      ring

theorem regSlope_mkP (rs : List (ℚ × ℚ))
    (hD : (rs.length : ℚ) * specSx2 rs - specSx rs * specSx rs ≠ 0) :
    regSlope (rs.map mkP) = .num (specSlope rs) := by
  simp only [regSlope, regSums_mkP, regFlen_mkP, num_mul, num_sub]
  rw [num_div _ _ hD]
  rfl

theorem regYmean_mkP (rs : List (ℚ × ℚ)) (hn : (rs.length : ℚ) ≠ 0) :
    regYmean (rs.map mkP) = .num (specSy rs / (rs.length : ℚ)) := by
  simp only [regYmean, regSums_mkP, regFlen_mkP]
  rw [num_div _ _ hn]

theorem regXmean_mkP (rs : List (ℚ × ℚ)) (hn : (rs.length : ℚ) ≠ 0) :
    regXmean (rs.map mkP) = .num (specSx rs / (rs.length : ℚ)) := by
  simp only [regXmean, regSums_mkP, regFlen_mkP]
  rw [num_div _ _ hn]

theorem regIntercept_mkP (rs : List (ℚ × ℚ)) (hn : (rs.length : ℚ) ≠ 0)
    (hD : (rs.length : ℚ) * specSx2 rs - specSx rs * specSx rs ≠ 0) :
    regIntercept (rs.map mkP) = .num (specIntercept rs) := by
  simp only [regIntercept, regYmean_mkP rs hn, regXmean_mkP rs hn, regSlope_mkP rs hD,
    num_mul, num_sub]
  rfl

theorem regSt_mkP (rs : List (ℚ × ℚ)) (hn : (rs.length : ℚ) ≠ 0) :
    regSt (rs.map mkP) = .num (specSt rs) := by
  unfold regSt
  rw [regYmean_mkP rs hn, foldl_sq]
  simp [specSt]

theorem regSr_mkP (rs : List (ℚ × ℚ)) (hn : (rs.length : ℚ) ≠ 0)
    (hD : (rs.length : ℚ) * specSx2 rs - specSx rs * specSx rs ≠ 0) :
    regSr (rs.map mkP) = .num (specSr rs) := by
  unfold regSr
  rw [regSlope_mkP rs hD, regIntercept_mkP rs hn hD, foldl_res]
  simp [specSr]

/-! ## Sums over constant coordinates -/

theorem sum_map_const_of {α : Type} (f : α → ℚ) (k : ℚ) (rs : List α)
    (h : ∀ p ∈ rs, f p = k) : (rs.map f).sum = rs.length * k := by
  induction rs with
  | nil => simp
  | cons hd tl ih =>
      simp only [List.map_cons, List.sum_cons, List.length_cons]
      rw [h hd (by simp), ih (fun p hp => h p (by simp [hp]))]
      push_cast
      ring

theorem specSx_const (rs : List (ℚ × ℚ)) (a : ℚ) (h : ∀ p ∈ rs, p.1 = a) :
    specSx rs = rs.length * a :=
  sum_map_const_of Prod.fst a rs h

theorem specSy_const (rs : List (ℚ × ℚ)) (c : ℚ) (h : ∀ p ∈ rs, p.2 = c) :
    specSy rs = rs.length * c :=
  sum_map_const_of Prod.snd c rs h

theorem specSx2_const (rs : List (ℚ × ℚ)) (a : ℚ) (h : ∀ p ∈ rs, p.1 = a) :
    specSx2 rs = rs.length * (a * a) :=
  sum_map_const_of _ (a * a) rs (fun p hp => by rw [h p hp])

theorem specSxy_const_x (rs : List (ℚ × ℚ)) (a : ℚ) (h : ∀ p ∈ rs, p.1 = a) :
    specSxy rs = a * specSy rs := by
  induction rs with
  | nil => simp [specSxy, specSy]
  | cons hd tl ih =>
      simp only [specSxy, specSy, List.map_cons, List.sum_cons] at *
      rw [h hd (by simp), ih (fun p hp => h p (by simp [hp]))]
      ring

theorem specSxy_const_y (rs : List (ℚ × ℚ)) (c : ℚ) (h : ∀ p ∈ rs, p.2 = c) :
    specSxy rs = c * specSx rs := by
  induction rs with
  | nil => simp [specSxy, specSx]
  | cons hd tl ih =>
      simp only [specSxy, specSx, List.map_cons, List.sum_cons] at *
      rw [h hd (by simp), ih (fun p hp => h p (by simp [hp]))]
      ring

/-! ## The ingest loop as a filter over the split lines -/

theorem ingestLoop_eq (ls : List (List Char)) : ∀ acc : List Point,
    ingestLoop ls acc =
      acc ++ ((ls.filter fun l => (parseLine l).2.isNone).map fun l => (parseLine l).1) := by
  induction ls with
  | nil => intro acc; simp [ingestLoop]
  | cons l rest ih =>
      intro acc
      rcases hp : parseLine l with ⟨p, e⟩
      cases e with
      | none =>
          simp only [ingestLoop, hp]
          rw [ih]
          simp [List.filter_cons, hp]
      | some err =>
          simp only [ingestLoop, hp]
          rw [ih]
          simp [List.filter_cons, hp]

theorem ingest_eq (src : List Char) :
    ingestSeries src =
      ((splitN '\n' MAXLINES src).filter fun l => (parseLine l).2.isNone).map
        fun l => (parseLine l).1 := by
  simpa [ingestSeries] using ingestLoop_eq (splitN '\n' MAXLINES src) []

theorem ingest_of_all_fail (src : List Char)
    (h : ∀ l ∈ splitN '\n' MAXLINES src, (parseLine l).2.isSome) : ingestSeries src = [] := by
  rw [ingest_eq]
  have hf : (splitN '\n' MAXLINES src).filter (fun l => (parseLine l).2.isNone) = [] := by
    refine List.filter_eq_nil_iff.mpr fun l hl => ?_
    have := h l hl
    rcases he : (parseLine l).2 with _ | e
    · rw [he] at this; simp at this
    · simp [he]
  rw [hf]
  rfl

/-! ## Degenerate-series behaviour of `linearRegression` -/

theorem linReg_nil : linearRegression [] = (.nan, .nan, .num 0, .nan) := by
  have hsums : regSums [] = ⟨.num 0, .num 0, .num 0, .num 0⟩ := rfl
  have hflen : regFlen [] = .num 0 := by simp [regFlen]
  have hslope : regSlope [] = .nan := by
    simp only [regSlope, hsums, hflen, num_mul, num_sub]
    norm_num
  have hym : regYmean [] = .nan := by
    simp only [regYmean, hsums, hflen]
    simp
  have hxm : regXmean [] = .nan := by
    simp only [regXmean, hsums, hflen]
    simp
  have hint : regIntercept [] = .nan := by
    simp [regIntercept, hym, hslope, hxm]
  have hst : regSt [] = .num 0 := rfl
  have hsr : regSr [] = .num 0 := rfl
  show (regSlope [], regIntercept [],
      FloatVal.sqrt (regSr [] / (regFlen [] - .num 2)),
      FloatVal.sqrt ((regSt [] - regSr []) / regSt [])) = _
  rw [hslope, hint, hsr, hst, hflen]
  rw [num_sub, num_div _ _ (by norm_num : ((0:ℚ) - 2) ≠ 0)]
  norm_num

theorem linReg_single (x y : ℚ) :
    linearRegression [⟨.num x, .num y⟩] = (.nan, .nan, .nan, .nan) := by
  have hsums : regSums [⟨.num x, .num y⟩] = ⟨.num x, .num y, .num (x * y), .num (x * x)⟩ := by
    simp [regSums]
  have hflen : regFlen [⟨.num x, .num y⟩] = .num 1 := by simp [regFlen]
  have hslope : regSlope [⟨.num x, .num y⟩] = .nan := by
    simp only [regSlope, hsums, hflen, num_mul, num_sub]
    have e1 : (1 * (x * y) - x * y : ℚ) = 0 := by ring
    have e2 : (1 * (x * x) - x * x : ℚ) = 0 := by ring
    rw [e1, e2]
    simp
  have hym : regYmean [⟨.num x, .num y⟩] = .num y := by
    simp only [regYmean, hsums, hflen]
    rw [num_div _ _ one_ne_zero]
    norm_num
  have hxm : regXmean [⟨.num x, .num y⟩] = .num x := by
    simp only [regXmean, hsums, hflen]
    rw [num_div _ _ one_ne_zero]
    norm_num
  have hint : regIntercept [⟨.num x, .num y⟩] = .nan := by
    simp [regIntercept, hym, hslope, hxm]
  have hst : regSt [⟨.num x, .num y⟩] = .num 0 := by
    unfold regSt
    rw [hym]
    simp
  have hsr : regSr [⟨.num x, .num y⟩] = .nan := by
    unfold regSr
    rw [hslope, hint]
    simp
  show (regSlope [⟨.num x, .num y⟩], regIntercept [⟨.num x, .num y⟩],
      FloatVal.sqrt (regSr [⟨.num x, .num y⟩] / (regFlen [⟨.num x, .num y⟩] - .num 2)),
      FloatVal.sqrt ((regSt [⟨.num x, .num y⟩] - regSr [⟨.num x, .num y⟩]) /
        regSt [⟨.num x, .num y⟩])) = _
  rw [hslope, hint, hsr, hst, hflen]
  simp

theorem regSlope_allx (rs : List (ℚ × ℚ)) (a : ℚ) (h : ∀ p ∈ rs, p.1 = a) :
    regSlope (rs.map mkP) = .nan := by
  simp only [regSlope, regSums_mkP, regFlen_mkP, num_mul, num_sub]
  rw [specSxy_const_x rs a h, specSx_const rs a h, specSx2_const rs a h]
  have e1 : ((rs.length : ℚ) * (a * specSy rs) - (rs.length : ℚ) * a * specSy rs : ℚ) = 0 := by
    ring
  have e2 : ((rs.length : ℚ) * ((rs.length : ℚ) * (a * a)) -
      (rs.length : ℚ) * a * ((rs.length : ℚ) * a) : ℚ) = 0 := by ring
  rw [e1, e2]
  simp

theorem corr_ally (rs : List (ℚ × ℚ)) (c : ℚ) (h1 : 1 ≤ rs.length)
    (hy : ∀ p ∈ rs, p.2 = c)
    (hD : (rs.length : ℚ) * specSx2 rs - specSx rs * specSx rs ≠ 0) :
    (linearRegression (rs.map mkP)).2.2.2 = .nan := by
  have hl : (0 : ℚ) < rs.length := by exact_mod_cast Nat.lt_of_lt_of_le Nat.zero_lt_one h1
  have hn : (rs.length : ℚ) ≠ 0 := ne_of_gt hl
  have hslope : regSlope (rs.map mkP) = .num 0 := by
    simp only [regSlope, regSums_mkP, regFlen_mkP, num_mul, num_sub]
    rw [specSxy_const_y rs c hy, specSy_const rs c hy]
    have hz : ((rs.length : ℚ) * (c * specSx rs) - specSx rs * ((rs.length : ℚ) * c) : ℚ) = 0 := by
      ring
    rw [hz, num_div _ _ hD, zero_div]
  have hym : regYmean (rs.map mkP) = .num c := by
    rw [regYmean_mkP rs hn, specSy_const rs c hy]
    congr 1
    field_simp
  have hint : regIntercept (rs.map mkP) = .num c := by
    simp only [regIntercept, hym, hslope, regXmean_mkP rs hn, num_mul, num_sub]
    congr 1
    ring
  have hst : regSt (rs.map mkP) = .num 0 := by
    unfold regSt
    rw [hym, foldl_sq]
    have hz : ((rs.map fun p => (p.2 - c) ^ 2).sum) = 0 := by
      refine List.sum_eq_zero fun q hq => ?_
      rcases List.mem_map.mp hq with ⟨p, hp, rfl⟩
      rw [hy p hp]
      ring
    rw [hz]
    norm_num
  have hsr : regSr (rs.map mkP) = .num ((rs.length : ℚ) * (2 * c) ^ 2) := by
    unfold regSr
    rw [hslope, hint, foldl_res]
    congr 1
    rw [sum_map_const_of _ ((2 * c) ^ 2) rs (fun p hp => by rw [hy p hp]; ring)]
    ring
  show FloatVal.sqrt ((regSt (rs.map mkP) - regSr (rs.map mkP)) / regSt (rs.map mkP)) = .nan
  rw [hst, hsr, num_sub]
  rcases eq_or_ne c 0 with hc | hc
  · subst hc
    norm_num
  · have h2c : (2 * c : ℚ) ≠ 0 := mul_ne_zero two_ne_zero hc
    have hsq : (0 : ℚ) < (2 * c) ^ 2 :=
      lt_of_le_of_ne (sq_nonneg _) (Ne.symm (pow_ne_zero 2 h2c))
    have hpos : (0 : ℚ) < (rs.length : ℚ) * (2 * c) ^ 2 := mul_pos hl hsq
    rw [num_div_zero, if_neg (by linarith), if_pos (by linarith)]
    exact sqrt_inf_neg

/-! ## Claims C1, C2, C10 on the line parser and the ingestor -/

/-- Claim C1 (counterexample): the non-empty line `"abc"` splits into a single
field, yet `parseLine` returns a nil error together with the zero pair, and
the ingestor appends that pair — the line neither fails with `MalformedLine`
nor is its pair left unused. -/
theorem claim1_counterexample :
    parseLine (strL "abc") = (⟨.num 0, .num 0⟩, none) ∧
      ingestSeries (strL "abc") = [⟨.num 0, .num 0⟩] := by
  constructor
  · decide
  · decide

/-- Claim C1 (amended): for every non-empty input line whose trimmed form
splits on comma into fewer than 2 fields, `parseLine` returns the zero-value
pair with a nil error (so the pair is treated as a parsed point, not
discarded). -/
theorem claim1_fewer_than_two_fields (line : List Char) (h1 : line ≠ [])
    (h2 : (splitN ',' 3 (trimSpace line)).length < 2) :
    parseLine line = (⟨.num 0, .num 0⟩, none) := by
  unfold parseLine
  rw [if_pos (List.length_pos.mpr h1)]
  rcases hs : splitN ',' 3 (trimSpace line) with _ | ⟨f0, tl⟩
  · rfl
  · rcases tl with _ | ⟨f1, tl2⟩
    · rfl
    · rw [hs] at h2
      simp only [List.length_cons] at h2
      omega

/-- Claim C1 (witness): the whitespace-only line `" "` is non-empty, trims to
the empty string, splits into one field, and parses to the zero pair with no
error. -/
theorem claim1_witness :
    strL " " ≠ [] ∧ (splitN ',' 3 (trimSpace (strL " "))).length < 2 ∧
      parseLine (strL " ") = (⟨.num 0, .num 0⟩, none) :=
  ⟨by decide, by decide, claim1_fewer_than_two_fields (strL " ") (by decide) (by decide)⟩

/-- Claim C2 (counterexample): the submission `"1,2\nabc"` has one valid line
and one malformed line, yet the ingested series has two pairs: the malformed
line `"abc"` is kept as the zero pair rather than dropped. -/
theorem claim2_counterexample :
    ingestSeries (strL "1,2\nabc") = [⟨.num 1, .num 2⟩, ⟨.num 0, .num 0⟩] ∧
      (ingestSeries (strL "1,2\nabc")).length = 2 := by
  constructor
  · decide
  · decide

/-- Claim C2 (amended): the ingested series consists exactly of the parsed
pairs of the lines on which `parseLine` reports a nil error, in original line
order; lines with a non-nil error (empty lines, and lines of at least two
fields with an unparsable first or second field) are silently dropped, but a
non-empty line with fewer than two fields is kept as the zero pair. -/
theorem claim2_kept_lines : ∀ src : List Char,
    ingestSeries src =
      ((splitN '\n' MAXLINES src).filter fun l => (parseLine l).2.isNone).map
        fun l => (parseLine l).1 :=
  ingest_eq

/-- Claim C10: ingestion is total — whenever every line fails `parseLine`,
the result is the empty series rather than an error — and on the empty
submission the split yields the single empty line, which fails `parseLine`
and is dropped, giving the empty series. -/
theorem claim10_ingest_total :
    (∀ src : List Char,
      (∀ l ∈ splitN '\n' MAXLINES src, (parseLine l).2.isSome) → ingestSeries src = []) ∧
    splitN '\n' MAXLINES (strL "") = [[]] ∧
    (parseLine (strL "")).2 = some .noData ∧
    ingestSeries (strL "") = [] :=
  ⟨fun src h => ingest_of_all_fail src h, by decide, by decide, by decide⟩

/-- Claim C10 (witness): on a submission whose two lines are `",,"` (invalid
numbers) and `""` (empty), ingestion returns the empty series. -/
theorem claim10_witness : ingestSeries (strL ",,\n") = [] :=
  claim10_ingest_total.1 (strL ",,\n") (by decide)

/-! ## Claims C3, C4, C7 on the regression engine -/

/-- Claim C3 (counterexample): on the empty series and on a singleton series
`linearRegression` does not signal any degenerate-series condition: it
returns a tuple of values, and those values are silent NaNs (with a 0
standard error for the empty series). -/
theorem claim3_counterexample :
    linearRegression [] = (.nan, .nan, .num 0, .nan) ∧
      linearRegression [⟨.num 1, .num 2⟩] = (.nan, .nan, .nan, .nan) :=
  ⟨linReg_nil, linReg_single 1 2⟩

/-- Claim C3 (amended): `linearRegression` performs no degeneracy check and
signals nothing: the empty series yields `(NaN, NaN, 0, NaN)`, a singleton
series yields all NaN, a series whose x-values are all identical yields a NaN
slope, and a nonempty series whose y-values are all identical (with a nonzero
slope denominator) yields a NaN correlation — the degenerate cases pass
through as silent NaN/infinity values. -/
theorem claim3_silent_nan :
    linearRegression [] = (.nan, .nan, .num 0, .nan) ∧
    (∀ x y : ℚ, linearRegression [⟨.num x, .num y⟩] = (.nan, .nan, .nan, .nan)) ∧
    (∀ (rs : List (ℚ × ℚ)) (a : ℚ), (∀ p ∈ rs, p.1 = a) →
      (linearRegression (rs.map mkP)).1 = .nan) ∧
    (∀ (rs : List (ℚ × ℚ)) (c : ℚ), 1 ≤ rs.length → (∀ p ∈ rs, p.2 = c) →
      (rs.length : ℚ) * specSx2 rs - specSx rs * specSx rs ≠ 0 →
      (linearRegression (rs.map mkP)).2.2.2 = .nan) :=
  ⟨linReg_nil, linReg_single, fun rs a h => regSlope_allx rs a h,
    fun rs c h1 hy hD => corr_ally rs c h1 hy hD⟩

/-- Claim C3 (witness): concrete degenerate series — a singleton, an
all-equal-x pair, and an all-equal-y pair — produce NaN results rather than
a degenerate-series signal. -/
theorem claim3_witness :
    linearRegression [⟨.num 5, .num 7⟩] = (.nan, .nan, .nan, .nan) ∧
    (linearRegression (([(1, 1), (1, 2)] : List (ℚ × ℚ)).map mkP)).1 = .nan ∧
    (linearRegression (([(1, 3), (2, 3)] : List (ℚ × ℚ)).map mkP)).2.2.2 = .nan :=
  ⟨claim3_silent_nan.2.1 5 7,
    claim3_silent_nan.2.2.1 [(1, 1), (1, 2)] 1 (by norm_num),
    claim3_silent_nan.2.2.2 [(1, 3), (2, 3)] 3 (by norm_num) (by norm_num)
      (by norm_num [specSx2, specSx])⟩

/-- Claim C4: for a series of finite pairs with at least two elements and a
nonzero slope denominator (and nonzero total sum of squares), the program
computes exactly the spec's formulas: slope = (n·Sxy − Sx·Sy)/(n·Sx2 − Sx·Sx),
intercept = mean(y) − slope·mean(x), standard error = sqrt(Sr/(n − 2)) and
correlation = sqrt((St − Sr)/St), where Sr sums the squared residuals against
the fitted value `slope·x − intercept` (minus, not plus). -/
theorem claim4_formulas (rs : List (ℚ × ℚ)) (h2 : 2 ≤ rs.length)
    (hD : (rs.length : ℚ) * specSx2 rs - specSx rs * specSx rs ≠ 0)
    (_hSt : specSt rs ≠ 0) :
    linearRegression (rs.map mkP) =
      (.num (specSlope rs), .num (specIntercept rs),
        FloatVal.sqrt (.num (specSr rs) / .num ((rs.length : ℚ) - 2)),
        FloatVal.sqrt ((.num (specSt rs) - .num (specSr rs)) / .num (specSt rs))) := by
  have hn : (rs.length : ℚ) ≠ 0 := by
    have : (0 : ℚ) < rs.length := by exact_mod_cast Nat.lt_of_lt_of_le Nat.zero_lt_two h2
    exact ne_of_gt this
  unfold linearRegression
  rw [regSlope_mkP rs hD, regIntercept_mkP rs hn hD, regSr_mkP rs hn hD, regSt_mkP rs hn,
    regFlen_mkP rs, num_sub]

/-- Claim C4 (witness): the two-point series (0,1), (1,3) satisfies the
hypotheses and instantiates the formula theorem. -/
theorem claim4_witness :
    2 ≤ ([(0, 1), (1, 3)] : List (ℚ × ℚ)).length ∧
    ((([(0, 1), (1, 3)] : List (ℚ × ℚ)).length : ℚ) * specSx2 [(0, 1), (1, 3)] -
      specSx [(0, 1), (1, 3)] * specSx [(0, 1), (1, 3)]) ≠ 0 ∧
    specSt ([(0, 1), (1, 3)] : List (ℚ × ℚ)) ≠ 0 ∧
    linearRegression (([(0, 1), (1, 3)] : List (ℚ × ℚ)).map mkP) =
      (.num (specSlope [(0, 1), (1, 3)]), .num (specIntercept [(0, 1), (1, 3)]),
        FloatVal.sqrt (.num (specSr [(0, 1), (1, 3)]) /
          .num ((([(0, 1), (1, 3)] : List (ℚ × ℚ)).length : ℚ) - 2)),
        FloatVal.sqrt ((.num (specSt [(0, 1), (1, 3)]) - .num (specSr [(0, 1), (1, 3)])) /
          .num (specSt [(0, 1), (1, 3)]))) :=
  ⟨by norm_num, by norm_num [specSx2, specSx], by norm_num [specSt, specSy],
    claim4_formulas [(0, 1), (1, 3)] (by norm_num) (by norm_num [specSx2, specSx])
      (by norm_num [specSt, specSy])⟩

/-- Claim C7: on the series (1,2), (2,4), (3,6) — a perfect fit y = 2x — the
program returns slope 2, intercept 0, standard error 0 and correlation 1. -/
theorem claim7_perfect_fit :
    linearRegression (([(1, 2), (2, 4), (3, 6)] : List (ℚ × ℚ)).map mkP) =
      (.num 2, .num 0, .num 0, .num 1) := by
  have hn : ((([(1, 2), (2, 4), (3, 6)] : List (ℚ × ℚ)).length : ℚ)) ≠ 0 := by norm_num
  have hD : ((([(1, 2), (2, 4), (3, 6)] : List (ℚ × ℚ)).length : ℚ) *
      specSx2 [(1, 2), (2, 4), (3, 6)] -
      specSx [(1, 2), (2, 4), (3, 6)] * specSx [(1, 2), (2, 4), (3, 6)]) ≠ 0 := by
    norm_num [specSx2, specSx]
  unfold linearRegression
  rw [regSlope_mkP _ hD, regIntercept_mkP _ hn hD, regSr_mkP _ hn hD, regSt_mkP _ hn,
    regFlen_mkP, num_sub]
  have hsl : specSlope ([(1, 2), (2, 4), (3, 6)] : List (ℚ × ℚ)) = 2 := by
    norm_num [specSlope, specSx, specSy, specSxy, specSx2]
  have hint : specIntercept ([(1, 2), (2, 4), (3, 6)] : List (ℚ × ℚ)) = 0 := by
    norm_num [specIntercept, specSlope, specSx, specSy, specSxy, specSx2]
  have hst : specSt ([(1, 2), (2, 4), (3, 6)] : List (ℚ × ℚ)) = 8 := by
    norm_num [specSt, specSy]
  have hsr : specSr ([(1, 2), (2, 4), (3, 6)] : List (ℚ × ℚ)) = 0 := by
    norm_num [specSr, specSlope, specIntercept, specSx, specSy, specSxy, specSx2]
  rw [hsl, hint, hst, hsr]
  norm_num [num_div]

/-! ## Claims C5, C6 on the response encoder -/

theorem marshalFloat_eq (v : FloatVal) (j : Json) (h : marshalFloat v = some j) :
    j = .jnum v := by
  unfold marshalFloat at h
  by_cases hf : v.isFinite
  · rw [if_pos hf] at h
    simpa using h.symm
  · rw [if_neg hf] at h
    simp at h

theorem mapM_points (l : List Point) : ∀ pts : List Json,
    l.mapM marshalPoint = some pts → pts = l.map pointJson := by
  induction l with
  | nil =>
      intro pts h
      simp only [List.mapM_nil] at h
      simp at h
      simp [h]
  | cons p rest ih =>
      intro pts h
      rw [List.mapM_cons] at h
      rcases hp : marshalPoint p with _ | jp
      · rw [hp] at h
        simp at h
      · rw [hp] at h
        rcases hr : rest.mapM marshalPoint with _ | jrest
        · rw [hr] at h
          simp at h
        · rw [hr] at h
          simp only [Option.bind_eq_bind, Option.some_bind, Option.pure_def,
            Option.some.injEq] at h
          have hjp : jp = pointJson p := by
            unfold marshalPoint at hp
            rcases hx : marshalFloat p.x with _ | jx
            · rw [hx] at hp
              simp at hp
            · rcases hy : marshalFloat p.y with _ | jy
              · rw [hx, hy] at hp
                simp at hp
              · rw [hx, hy] at hp
                simp only [Option.bind_eq_bind, Option.some_bind, Option.pure_def,
                  Option.some.injEq] at hp
                rw [← hp, marshalFloat_eq _ _ hx, marshalFloat_eq _ _ hy]
                rfl
          rw [← h, hjp, ih jrest hr]
          rfl

/-- Claim C5: whenever part_000's `json.Marshal` of a data sample succeeds,
the document has exactly the two top-level fields `series` (the ordered array
of `x`/`y` objects of the series) and `regressionLine` (the object with
fields `slope`, `intercept`, `stdError`, `correlation`), in this nesting. -/
theorem claim5_document_shape (ds : DataSample) (j : Json)
    (h : marshalDataSample ds = some j) :
    j = .jobj [("series", .jarr (ds.series.map pointJson)),
      ("regressionLine", rlJson ds.regressionLine)] ∧
    topFields j = ["series", "regressionLine"] ∧
    topFields (rlJson ds.regressionLine) = ["slope", "intercept", "stdError", "correlation"] ∧
    (∀ p ∈ ds.series, topFields (pointJson p) = ["x", "y"]) := by
  have hj : j = .jobj [("series", .jarr (ds.series.map pointJson)),
      ("regressionLine", rlJson ds.regressionLine)] := by
    unfold marshalDataSample at h
    rcases hpts : ds.series.mapM marshalPoint with _ | pts
    · rw [hpts] at h
      simp at h
    · rcases hs : marshalFloat ds.regressionLine.slope with _ | js
      · rw [hpts, hs] at h
        simp at h
      · rcases hi : marshalFloat ds.regressionLine.intercept with _ | ji
        · rw [hpts, hs, hi] at h
          simp at h
        · rcases he : marshalFloat ds.regressionLine.stdError with _ | je
          · rw [hpts, hs, hi, he] at h
            simp at h
          · rcases hc : marshalFloat ds.regressionLine.correlation with _ | jc
            · rw [hpts, hs, hi, he, hc] at h
              simp at h
            · rw [hpts, hs, hi, he, hc] at h
              simp only [Option.bind_eq_bind, Option.some_bind, Option.pure_def,
                Option.some.injEq] at h
              rw [← h, mapM_points _ _ hpts, marshalFloat_eq _ _ hs, marshalFloat_eq _ _ hi,
                marshalFloat_eq _ _ he, marshalFloat_eq _ _ hc]
              rfl
  refine ⟨hj, ?_, rfl, fun p _ => rfl⟩
  rw [hj]
  rfl

/-- Claim C5 (witness): a concrete finite sample marshals to exactly the
two-field document. -/
theorem claim5_witness :
    marshalDataSample ⟨[⟨.num 1, .num 2⟩], ⟨.num 2, .num 0, .num 0, .num 1⟩⟩ =
      some (.jobj [("series", .jarr ([⟨.num 1, .num 2⟩].map pointJson)),
        ("regressionLine", rlJson ⟨.num 2, .num 0, .num 0, .num 1⟩)]) ∧
    topFields (.jobj [("series", .jarr ([(⟨.num 1, .num 2⟩ : Point)].map pointJson)),
      ("regressionLine", rlJson ⟨.num 2, .num 0, .num 0, .num 1⟩)]) =
      ["series", "regressionLine"] :=
  ⟨rfl,
    (claim5_document_shape ⟨[⟨.num 1, .num 2⟩], ⟨.num 2, .num 0, .num 0, .num 1⟩⟩ _ rfl).2.1⟩

theorem marshal_nil_sample : marshalDataSample (sampleOf []) = none := by
  have h1 : linearRegression [] = (.nan, .nan, .num 0, .nan) := linReg_nil
  simp [sampleOf, marshalDataSample, marshalFloat, h1, FloatVal.isFinite]

/-- Claim C6: when no line of the submission parses (every split line fails
`parseLine`), the series is empty, the regression returns NaN values (the
slope is NaN), `json.Marshal` fails on them, and part_000's
`dataSampleProcess` takes the error branch and returns the empty string. -/
theorem claim6_empty_output (src : List Char)
    (h : ∀ l ∈ splitN '\n' MAXLINES src, (parseLine l).2.isSome) :
    ingestSeries src = [] ∧
    (linearRegression (ingestSeries src)).1 = .nan ∧
    marshalDataSample (sampleOf (ingestSeries src)) = none ∧
    dataSampleProcess src = "" := by
  have hs : ingestSeries src = [] := ingest_of_all_fail src h
  refine ⟨hs, ?_, ?_, ?_⟩
  · rw [hs, linReg_nil]
  · rw [hs]
    exact marshal_nil_sample
  · unfold dataSampleProcess
    rw [hs, marshal_nil_sample]

/-- Claim C6 (witness): the empty submission parses no line, and
`dataSampleProcess` returns the empty string on it. -/
theorem claim6_witness :
    ingestSeries (strL "") = [] ∧
    (linearRegression (ingestSeries (strL ""))).1 = .nan ∧
    marshalDataSample (sampleOf (ingestSeries (strL ""))) = none ∧
    dataSampleProcess (strL "") = "" :=
  claim6_empty_output (strL "") (by decide)

/-! ## Character classes of successfully parsed numbers (for claim C8) -/

theorem isSpace_cases (c : Char) (h : isSpace c = true) :
    c = ' ' ∨ c = '\t' ∨ c = '\n' ∨ c = '\r' ∨ c = '\x0b' ∨ c = '\x0c' := by
  simp [isSpace] at h
  tauto

theorem digit_ok (c : Char) (h : c.isDigit = true) : isSpace c = false ∧ c ≠ ',' := by
  constructor
  · by_contra hsp
    have hsp' : isSpace c = true := by revert hsp; cases isSpace c <;> simp
    rcases isSpace_cases c hsp' with rfl | rfl | rfl | rfl | rfl | rfl <;>
      exact absurd h (by decide)
  · intro hc
    subst hc
    exact absurd h (by decide)

theorem lower_ok (c d : Char) (hd : d ∈ (['i', 'n', 'f', 't', 'y', 'a'] : List Char))
    (h : c.toLower = d) : isSpace c = false ∧ c ≠ ',' := by
  constructor
  · by_contra hsp
    have hsp' : isSpace c = true := by revert hsp; cases isSpace c <;> simp
    rcases isSpace_cases c hsp' with rfl | rfl | rfl | rfl | rfl | rfl <;>
      (rw [← h] at hd; exact absurd hd (by decide))
  · intro hc
    subst hc
    rw [← h] at hd
    exact absurd hd (by decide)

theorem eqFold_ok (s pat : List Char)
    (hpat : ∀ d ∈ pat, d ∈ (['i', 'n', 'f', 't', 'y', 'a'] : List Char))
    (h : s.map Char.toLower = pat) : ∀ c ∈ s, isSpace c = false ∧ c ≠ ',' := by
  intro c hc
  have hmem : c.toLower ∈ pat := h ▸ List.mem_map_of_mem Char.toLower hc
  exact lower_ok c c.toLower (hpat _ hmem) rfl

theorem parseSignCh_shape (l : List Char) (b : Bool) (r : List Char)
    (h : parseSignCh l = (b, r)) : l = r ∨ l = '+' :: r ∨ l = '-' :: r := by
  rcases l with _ | ⟨c, cs⟩
  · simp only [parseSignCh] at h
    simp at h
    simp [h]
  · simp only [parseSignCh] at h
    by_cases h1 : c = '-'
    · subst h1
      rw [if_pos rfl] at h
      simp at h
      right; right
      rw [h.2]
    · rw [if_neg h1] at h
      by_cases h2 : c = '+'
      · subst h2
        rw [if_pos rfl] at h
        simp at h
        right; left
        rw [h.2]
      · rw [if_neg h2] at h
        simp at h
        left
        rw [h.2]

theorem parseExpPart_chars (r : List Char) (m m' : ℚ) (h : parseExpPart r m = some m') :
    ∀ c ∈ r, isSpace c = false ∧ c ≠ ',' := by
  rcases r with _ | ⟨c, cs⟩
  · simp
  · simp only [parseExpPart] at h
    by_cases he : c = 'e' ∨ c = 'E'
    · rw [if_pos he] at h
      rcases hsg : parseSignCh cs with ⟨b, cs2⟩
      rw [hsg] at h
      simp only at h
      by_cases hcond : cs2.takeWhile Char.isDigit = [] ∨ cs2.dropWhile Char.isDigit ≠ []
      · rw [if_pos hcond] at h
        exact absurd h (by simp)
      · rw [if_neg hcond] at h
        push_neg at hcond
        have hall : ∀ c' ∈ cs2, c'.isDigit = true := by
          have hsplit : cs2.takeWhile Char.isDigit ++ cs2.dropWhile Char.isDigit = cs2 :=
            List.takeWhile_append_dropWhile _ _
          rw [hcond.2, List.append_nil] at hsplit
          intro c' hc'
          exact List.mem_takeWhile_imp (hsplit ▸ hc')
        intro c' hc'
        rcases List.mem_cons.mp hc' with rfl | hc2
        · rcases he with rfl | rfl <;> exact ⟨by decide, by decide⟩
        · rcases parseSignCh_shape cs b cs2 hsg with hcs | hcs | hcs
          · exact digit_ok c' (hall c' (hcs ▸ hc2))
          · rw [hcs] at hc2
            rcases List.mem_cons.mp hc2 with rfl | hc3
            · exact ⟨by decide, by decide⟩
            · exact digit_ok c' (hall c' hc3)
          · rw [hcs] at hc2
            rcases List.mem_cons.mp hc2 with rfl | hc3
            · exact ⟨by decide, by decide⟩
            · exact digit_ok c' (hall c' hc3)
    · rw [if_neg he] at h
      exact absurd h (by simp)

theorem parseMantissa_chars (s : List Char) (m : ℚ) (h : parseMantissa s = some m) :
    ∀ c ∈ s, isSpace c = false ∧ c ≠ ',' := by
  have hsplit : s.takeWhile Char.isDigit ++ s.dropWhile Char.isDigit = s :=
    List.takeWhile_append_dropWhile _ _
  have htake : ∀ c ∈ s.takeWhile Char.isDigit, isSpace c = false ∧ c ≠ ',' :=
    fun c hc => digit_ok c (List.mem_takeWhile_imp hc)
  unfold parseMantissa at h
  simp only at h
  by_cases hdot : (s.dropWhile Char.isDigit).head? = some '.'
  · rw [if_pos hdot] at h
    rcases hr1 : s.dropWhile Char.isDigit with _ | ⟨c0, r2⟩
    · rw [hr1] at hdot
      exact absurd hdot (by simp)
    · rw [hr1] at hdot
      simp at hdot
      subst hdot
      rw [hr1] at h
      simp only [List.tail_cons] at h
      by_cases hcond : s.takeWhile Char.isDigit = [] ∧ r2.takeWhile Char.isDigit = []
      · rw [if_pos hcond] at h
        exact absurd h (by simp)
      · rw [if_neg hcond] at h
        have hr2 : ∀ c ∈ r2, isSpace c = false ∧ c ≠ ',' := by
          have hsplit2 : r2.takeWhile Char.isDigit ++ r2.dropWhile Char.isDigit = r2 :=
            List.takeWhile_append_dropWhile _ _
          intro c hc
          rcases List.mem_append.mp (hsplit2 ▸ hc) with hc1 | hc2
          · exact digit_ok c (List.mem_takeWhile_imp hc1)
          · exact parseExpPart_chars _ _ _ h c hc2
        intro c hc
        rcases List.mem_append.mp (hsplit ▸ hc) with hc1 | hc2
        · exact htake c hc1
        · rw [hr1] at hc2
          rcases List.mem_cons.mp hc2 with rfl | hc3
          · exact ⟨by decide, by decide⟩
          · exact hr2 c hc3
  · rw [if_neg hdot] at h
    by_cases hd1 : s.takeWhile Char.isDigit = []
    · rw [if_pos hd1] at h
      exact absurd h (by simp)
    · rw [if_neg hd1] at h
      intro c hc
      rcases List.mem_append.mp (hsplit ▸ hc) with hc1 | hc2
      · exact htake c hc1
      · exact parseExpPart_chars _ _ _ h c hc2

theorem parseFloat_chars (s : List Char) (v : FloatVal) (h : parseFloat s = some v) :
    s ≠ [] ∧ ∀ c ∈ s, isSpace c = false ∧ c ≠ ',' := by
  unfold parseFloat at h
  by_cases hnil : s = []
  · rw [if_pos hnil] at h
    exact absurd h (by simp)
  · rw [if_neg hnil] at h
    refine ⟨hnil, ?_⟩
    rcases hsg : parseSignCh s with ⟨b, rest⟩
    rw [hsg] at h
    simp only at h
    have hsign : ∀ c ∈ s, (c ∈ rest ∨ c = '+' ∨ c = '-') := by
      intro c hc
      rcases parseSignCh_shape s b rest hsg with hs | hs | hs
      · exact Or.inl (hs ▸ hc)
      · rw [hs] at hc
        rcases List.mem_cons.mp hc with rfl | hc2
        · exact Or.inr (Or.inl rfl)
        · exact Or.inl hc2
      · rw [hs] at hc
        rcases List.mem_cons.mp hc with rfl | hc2
        · exact Or.inr (Or.inr rfl)
        · exact Or.inl hc2
    by_cases hinf : rest.map Char.toLower = ['i', 'n', 'f']
        ∨ rest.map Char.toLower = ['i', 'n', 'f', 'i', 'n', 'i', 't', 'y']
    · have hrest : ∀ c ∈ rest, isSpace c = false ∧ c ≠ ',' := by
        rcases hinf with hinf | hinf
        · exact eqFold_ok rest _ (by decide) hinf
        · exact eqFold_ok rest _ (by decide) hinf
      intro c hc
      rcases hsign c hc with hc1 | rfl | rfl
      · exact hrest c hc1
      · exact ⟨by decide, by decide⟩
      · exact ⟨by decide, by decide⟩
    · rw [if_neg hinf] at h
      by_cases hnan : s.map Char.toLower = ['n', 'a', 'n']
      · exact eqFold_ok s _ (by decide) hnan
      · rw [if_neg hnan] at h
        rcases hm : parseMantissa rest with _ | m
        · rw [hm] at h
          exact absurd h (by simp)
        · have hrest := parseMantissa_chars rest m hm
          intro c hc
          rcases hsign c hc with hc1 | rfl | rfl
          · exact hrest c hc1
          · exact ⟨by decide, by decide⟩
          · exact ⟨by decide, by decide⟩

/-! ## Trimming and splitting around a parsed pair (for claim C8) -/

theorem dropWhile_of_all_neg {p : Char → Bool} (l : List Char) (h : ∀ c ∈ l, p c = false) :
    l.dropWhile p = l := by
  rcases l with _ | ⟨c, r⟩
  · rfl
  · rw [List.dropWhile_cons_of_neg]
    simp [h c (by simp)]

theorem trimStart_append_ws (ws t : List Char) (hws : ∀ c ∈ ws, isSpace c = true) :
    trimStart (ws ++ t) = trimStart t :=
  List.dropWhile_append_of_pos hws

theorem trimStart_append_of_head (a t : List Char) (hne : a ≠ [])
    (h : ∀ c ∈ a, isSpace c = false) : trimStart (a ++ t) = a ++ t := by
  rcases a with _ | ⟨c, r⟩
  · exact absurd rfl hne
  · show List.dropWhile _ _ = _
    rw [List.cons_append, List.dropWhile_cons_of_neg (by simp [h c (by simp)])]

theorem trimEnd_all_ws (ws : List Char) (h : ∀ c ∈ ws, isSpace c = true) : trimEnd ws = [] := by
  unfold trimEnd
  have hz : ws.reverse.dropWhile isSpace = [] :=
    List.dropWhile_eq_nil_iff.mpr fun c hc => h c (List.mem_reverse.mp hc)
  rw [hz]
  rfl

theorem trimEnd_no_ws (t : List Char) (h : ∀ c ∈ t, isSpace c = false) : trimEnd t = t := by
  unfold trimEnd
  rw [dropWhile_of_all_neg _ (fun c hc => h c (List.mem_reverse.mp hc)), List.reverse_reverse]

theorem trimEnd_append (a b : List Char) :
    trimEnd (a ++ b) = if trimEnd b = [] then trimEnd a else a ++ trimEnd b := by
  by_cases hb : trimEnd b = []
  · have hb' : b.reverse.dropWhile isSpace = [] := by
      have := congrArg List.reverse hb
      simpa [trimEnd] using this
    rw [if_pos hb]
    unfold trimEnd
    rw [List.reverse_append, List.dropWhile_append, if_pos (by simp [hb'])]
  · have hb' : ¬(b.reverse.dropWhile isSpace = []) := fun hcon => hb (by simp [trimEnd, hcon])
    rw [if_neg hb]
    unfold trimEnd
    rw [List.reverse_append, List.dropWhile_append, if_neg (by simpa using hb'),
      List.reverse_append, List.reverse_reverse]

theorem splitFirst_none (sep : Char) (l : List Char) (h : ∀ c ∈ l, c ≠ sep) :
    splitFirst sep l = none := by
  induction l with
  | nil => rfl
  | cons c r ih =>
      unfold splitFirst
      rw [if_neg (h c (by simp)), ih (fun c' hc' => h c' (by simp [hc']))]

theorem splitFirst_append (sep : Char) (a b : List Char) (h : ∀ c ∈ a, c ≠ sep) :
    splitFirst sep (a ++ sep :: b) = some (a, b) := by
  induction a with
  | nil =>
      simp only [List.nil_append]
      unfold splitFirst
      rw [if_pos rfl]
  | cons c r ih =>
      simp only [List.cons_append]
      unfold splitFirst
      rw [if_neg (h c (by simp)), ih (fun c' hc' => h c' (by simp [hc']))]

theorem splitN_step (sep : Char) (n : Nat) (s : List Char) :
    splitN sep (n + 2) s =
      match splitFirst sep s with
      | none => [s]
      | some (a, b) => a :: splitN sep (n + 1) b := rfl

theorem splitN3_two_fields (f0 f1 : List Char) (h0 : ∀ c ∈ f0, c ≠ ',')
    (h1 : ∀ c ∈ f1, c ≠ ',') : splitN ',' 3 (f0 ++ ',' :: f1) = [f0, f1] := by
  rw [show (3 : ℕ) = 1 + 2 from rfl, splitN_step, splitFirst_append ',' f0 f1 h0]
  show f0 :: splitN ',' 2 f1 = _
  rw [show (2 : ℕ) = 0 + 2 from rfl, splitN_step, splitFirst_none ',' f1 h1]

theorem splitN3_three_fields (f0 f1 rest : List Char) (h0 : ∀ c ∈ f0, c ≠ ',')
    (h1 : ∀ c ∈ f1, c ≠ ',') :
    splitN ',' 3 (f0 ++ ',' :: (f1 ++ ',' :: rest)) = [f0, f1, rest] := by
  rw [show (3 : ℕ) = 1 + 2 from rfl, splitN_step, splitFirst_append ',' f0 _ h0]
  show f0 :: splitN ',' 2 (f1 ++ ',' :: rest) = _
  rw [show (2 : ℕ) = 0 + 2 from rfl, splitN_step, splitFirst_append ',' f1 rest h1]
  rfl

/-! ## Claim C8 on valid coordinate lines -/

/-- Claim C8: any line of the form `x,y` — two syntactically valid finite
numbers around a comma, the whole line possibly surrounded by whitespace —
parses to exactly the pair (x, y); and a third comma-separated field, of any
content, is ignored and does not change the result. -/
theorem claim8_valid_lines (ws1 ws2 sx sy extra : List Char) (x y : ℚ)
    (hws1 : ∀ c ∈ ws1, isSpace c = true) (hws2 : ∀ c ∈ ws2, isSpace c = true)
    (hx : parseFloat sx = some (.num x)) (hy : parseFloat sy = some (.num y)) :
    parseLine (ws1 ++ sx ++ [','] ++ sy ++ ws2) = (⟨.num x, .num y⟩, none) ∧
    parseLine (ws1 ++ sx ++ [','] ++ sy ++ [','] ++ extra ++ ws2) =
      (⟨.num x, .num y⟩, none) := by
  obtain ⟨hsx_ne, hsx_ok⟩ := parseFloat_chars sx _ hx
  obtain ⟨hsy_ne, hsy_ok⟩ := parseFloat_chars sy _ hy
  have hsx_nws : ∀ c ∈ sx, isSpace c = false := fun c hc => (hsx_ok c hc).1
  have hsx_nc : ∀ c ∈ sx, c ≠ ',' := fun c hc => (hsx_ok c hc).2
  have hsy_nws : ∀ c ∈ sy, isSpace c = false := fun c hc => (hsy_ok c hc).1
  have hsy_nc : ∀ c ∈ sy, c ≠ ',' := fun c hc => (hsy_ok c hc).2
  have hmid_nws : ∀ c ∈ sx ++ ',' :: sy, isSpace c = false := by
    intro c hc
    rcases List.mem_append.mp hc with hc1 | hc2
    · exact hsx_nws c hc1
    · rcases List.mem_cons.mp hc2 with rfl | hc3
      · decide
      · exact hsy_nws c hc3
  constructor
  · -- no third field
    have hline : ws1 ++ sx ++ [','] ++ sy ++ ws2 = ws1 ++ ((sx ++ ',' :: sy) ++ ws2) := by
      simp [List.append_assoc]
    have htrim : trimSpace (ws1 ++ sx ++ [','] ++ sy ++ ws2) = sx ++ ',' :: sy := by
      unfold trimSpace
      rw [hline, trimStart_append_ws ws1 _ hws1,
        trimStart_append_of_head _ _ (by simp [hsx_ne]) hmid_nws,
        trimEnd_append, if_pos (trimEnd_all_ws ws2 hws2), trimEnd_no_ws _ hmid_nws]
    have hlen : (ws1 ++ sx ++ [','] ++ sy ++ ws2).length > 0 := by
      simp [List.length_append]
    unfold parseLine
    rw [if_pos hlen, htrim, splitN3_two_fields sx sy hsx_nc hsy_nc]
    simp only [hx, hy]
  · -- third field present, arbitrary content
    have hline : ws1 ++ sx ++ [','] ++ sy ++ [','] ++ extra ++ ws2 =
        ws1 ++ (((sx ++ ',' :: sy) ++ [',']) ++ (extra ++ ws2)) := by
      simp [List.append_assoc]
    have hmid2_nws : ∀ c ∈ (sx ++ ',' :: sy) ++ [','], isSpace c = false := by
      intro c hc
      rcases List.mem_append.mp hc with hc1 | hc2
      · exact hmid_nws c hc1
      · rcases List.mem_cons.mp hc2 with rfl | hc3
        · decide
        · exact absurd hc3 (by simp)
    have htrim : trimSpace (ws1 ++ sx ++ [','] ++ sy ++ [','] ++ extra ++ ws2) =
        (sx ++ ',' :: sy) ++ ',' :: trimEnd (extra ++ ws2) := by
      unfold trimSpace
      rw [hline, trimStart_append_ws ws1 _ hws1,
        trimStart_append_of_head _ _ (by simp [hsx_ne]) hmid2_nws,
        trimEnd_append]
      by_cases he : trimEnd (extra ++ ws2) = []
      · rw [if_pos he, he, trimEnd_no_ws _ hmid2_nws]
      · rw [if_neg he]
        simp
    have hlen : (ws1 ++ sx ++ [','] ++ sy ++ [','] ++ extra ++ ws2).length > 0 := by
      simp [List.length_append]
    unfold parseLine
    rw [if_pos hlen, htrim]
    have hshape : (sx ++ ',' :: sy) ++ ',' :: trimEnd (extra ++ ws2) =
        sx ++ ',' :: (sy ++ ',' :: trimEnd (extra ++ ws2)) := by
      simp [List.append_assoc]
    rw [hshape, splitN3_three_fields sx sy _ hsx_nc hsy_nc]
    simp only [hx, hy]

/-- Claim C8 (witness): the line `" 12,3 "` parses to (12, 3), and so does
`" 12,3,zz "` with its ignored third field. -/
theorem claim8_witness :
    parseLine (strL " " ++ strL "12" ++ [','] ++ strL "3" ++ strL " ") =
      (⟨.num 12, .num 3⟩, none) ∧
    parseLine (strL " " ++ strL "12" ++ [','] ++ strL "3" ++ [','] ++ strL "zz" ++ strL " ") =
      (⟨.num 12, .num 3⟩, none) :=
  claim8_valid_lines (strL " ") (strL " ") (strL "12") (strL "3") (strL "zz") 12 3
    (by decide) (by decide) (by decide) (by decide)

/-! ## Claim C9 on the parse-error cases -/

/-- Claim C9: `parseLine` fails with the no-data error exactly on the empty
(untrimmed) line; and on a line splitting into at least two fields it fails
with the invalid-number error when field 0 does not parse (whatever field 1
contains — field 1 is not attempted, the pair stays zero), or when field 0
parses and field 1 does not (the pair keeps the parsed x and zero y). -/
theorem claim9_error_cases :
    (∀ s : List Char, (parseLine s).2 = some .noData ↔ s = []) ∧
    (∀ (s f0 f1 : List Char) (rest : List (List Char)), s ≠ [] →
      splitN ',' 3 (trimSpace s) = f0 :: f1 :: rest → parseFloat f0 = none →
      parseLine s = (⟨.num 0, .num 0⟩, some .invalidNumber)) ∧
    (∀ (s f0 f1 : List Char) (rest : List (List Char)) (x : FloatVal), s ≠ [] →
      splitN ',' 3 (trimSpace s) = f0 :: f1 :: rest → parseFloat f0 = some x →
      parseFloat f1 = none →
      parseLine s = (⟨x, .num 0⟩, some .invalidNumber)) := by
  refine ⟨fun s => ⟨fun h => ?_, fun h => by subst h; rfl⟩, ?_, ?_⟩
  · by_contra hne
    unfold parseLine at h
    rw [if_pos (List.length_pos.mpr hne)] at h
    rcases hs : splitN ',' 3 (trimSpace s) with _ | ⟨f0, tl⟩
    · simp only [hs] at h
      exact absurd h (by simp)
    · rcases tl with _ | ⟨f1, tl2⟩
      · simp only [hs] at h
        exact absurd h (by simp)
      · simp only [hs] at h
        rcases hf0 : parseFloat f0 with _ | x
        · simp only [hf0] at h
          exact absurd h (by simp)
        · rcases hf1 : parseFloat f1 with _ | y
          · simp only [hf0, hf1] at h
            exact absurd h (by simp)
          · simp only [hf0, hf1] at h
            exact absurd h (by simp)
  · intro s f0 f1 rest hne hs hf0
    unfold parseLine
    rw [if_pos (List.length_pos.mpr hne)]
    simp only [hs, hf0]
  · intro s f0 f1 rest x hne hs hf0 hf1
    unfold parseLine
    rw [if_pos (List.length_pos.mpr hne)]
    simp only [hs, hf0, hf1]

/-- Claim C9 (witness): `""` fails with the no-data error; `"abc,5"` fails on
field 0 with the invalid-number error and the zero pair; `"5,abc"` fails on
field 1 with the invalid-number error, keeping x = 5 and zero y. -/
theorem claim9_witness :
    (parseLine (strL "")).2 = some .noData ∧
    parseLine (strL "abc,5") = (⟨.num 0, .num 0⟩, some .invalidNumber) ∧
    parseLine (strL "5,abc") = (⟨.num 5, .num 0⟩, some .invalidNumber) :=
  ⟨(claim9_error_cases.1 (strL "")).mpr (by decide),
    claim9_error_cases.2.1 (strL "abc,5") (strL "abc") (strL "5") [] (by decide) (by decide)
      (by decide),
    claim9_error_cases.2.2 (strL "5,abc") (strL "5") (strL "abc") [] (.num 5) (by decide)
      (by decide) (by decide) (by decide)⟩

end GoPlot
